import Mathlib

/-!
Verification of the md-mermaid-checker tool (src/md_mermaid_checker/cli.py)
against its natural-language specification.

The development shallowly embeds the Python source: strings are lists of
characters, file contents are lists of bytes, the file system / glob
expansion / subprocess execution are oracle functions supplied in an
environment record, and the imperative main loop is an explicit fold over
an orchestrator state.  All definitions are translated from the source;
the few definitions that follow the wording of the specification instead
(used to refute claims) are clearly marked with a Spec suffix.
-/

namespace MdMermaidChecker

/-- Strings of the embedded program are plain lists of characters. -/
abbrev Str := List Char

/-- Whitespace test matching Python: the characters accepted by the regex
class used in the fence patterns and by str.strip (tab through carriage
return, the separator controls 0x1c–0x1f, space, next line, no-break space
and the Unicode space code points). -/
def pyIsSpace (c : Char) : Bool :=
  let n := c.toNat
  (9 ≤ n && n ≤ 13) || (28 ≤ n && n ≤ 31) || n == 32 || n == 133 || n == 160 ||
  n == 0x1680 || (0x2000 ≤ n && n ≤ 0x200A) || n == 0x2028 || n == 0x2029 ||
  n == 0x202F || n == 0x205F || n == 0x3000

/-- Strip leading and trailing Python whitespace, as str.strip does. -/
def pyStrip (s : Str) : Str :=
  ((s.dropWhile pyIsSpace).reverse.dropWhile pyIsSpace).reverse

/-- The backtick character, code point 96. -/
def btick : Char := Char.ofNat 96

/-- Three backticks, the literal part shared by both fence regexes. -/
def fence3 : Str := [btick, btick, btick]

/-- First accepted opening tag spelling. -/
def tagMermaid : Str := "mermaid".data

/-- Second accepted opening tag spelling. -/
def tagMermaidJs : Str := "mermaidjs".data

/-- Match a literal pattern at the head of a string: dropExact pat l
returns the remainder when l = pat ++ rest, and none otherwise. -/
def dropExact : Str → Str → Option Str
  | [], l => some l
  | _ :: _, [] => none
  | c :: ps, x :: xs => if x = c then dropExact ps xs else none

/-- Match of the anchored pattern whitespace, three backticks, a literal
tag, whitespace; with an empty tag this is the close-fence regex
END_FENCE_RE and with the mermaid tags it gives FENCE_RE. -/
def matchTagLine (tag : Str) (l : Str) : Bool :=
  match dropExact (fence3 ++ tag) (l.dropWhile pyIsSpace) with
  | some r => r.all pyIsSpace
  | none => false

/-- FENCE_RE from the source: an opening fence line tagged mermaid or
mermaidjs (the regex alternation accepts exactly these two spellings). -/
def openFenceMatch (l : Str) : Bool :=
  matchTagLine tagMermaid l || matchTagLine tagMermaidJs l

/-- END_FENCE_RE from the source: a line of exactly three backticks padded
with whitespace only. -/
def endFenceMatch (l : Str) : Bool :=
  matchTagLine [] l

/-- Line-break characters recognised by Python str.splitlines. -/
def isLineBreakChar (c : Char) : Bool :=
  let n := c.toNat
  n == 10 || n == 13 || n == 11 || n == 12 || n == 28 || n == 29 || n == 30 ||
  n == 133 || n == 0x2028 || n == 0x2029

/-- Helper for splitlines: acc holds the current (reversed) line. -/
def splitlinesAux : List Char → List Char → List (List Char)
  | [], acc => if acc.isEmpty then [] else [acc.reverse]
  | [c], acc =>
    if isLineBreakChar c then [acc.reverse] else [(c :: acc).reverse]
  | c :: c2 :: rest2, acc =>
    if c.toNat == 13 then
      if c2.toNat == 10 then acc.reverse :: splitlinesAux rest2 []
      else acc.reverse :: splitlinesAux (c2 :: rest2) []
    else if isLineBreakChar c then acc.reverse :: splitlinesAux (c2 :: rest2) []
    else splitlinesAux (c2 :: rest2) (c :: acc)

/-- Python str.splitlines with keepends false. -/
def splitlines (s : Str) : List Str :=
  splitlinesAux s []

/-- Newline as a one-character string, the separator of the join that
builds a block content. -/
def nlStr : Str := ['\n']

/-- Join a list of lines with newline, as the join call in the source. -/
def joinNL (lines : List Str) : Str :=
  List.intercalate nlStr lines

/-- Continuation-byte test of the UTF-8 decoders. -/
def isCont (b : Nat) : Bool := 0x80 ≤ b && b ≤ 0xBF

/-- Validity of a three-byte UTF-8 lead pair (lead byte and first
continuation), excluding overlong forms and surrogates. -/
def valid3Pair (b1 b2 : Nat) : Bool :=
  (b1 == 0xE0 && 0xA0 ≤ b2 && b2 ≤ 0xBF) ||
  (0xE1 ≤ b1 && b1 ≤ 0xEC && isCont b2) ||
  (b1 == 0xED && 0x80 ≤ b2 && b2 ≤ 0x9F) ||
  (0xEE ≤ b1 && b1 ≤ 0xEF && isCont b2)

/-- Validity of a four-byte UTF-8 lead pair, excluding overlong forms and
code points beyond 0x10FFFF. -/
def valid4Pair (b1 b2 : Nat) : Bool :=
  (b1 == 0xF0 && 0x90 ≤ b2 && b2 ≤ 0xBF) ||
  (0xF1 ≤ b1 && b1 ≤ 0xF3 && isCont b2) ||
  (b1 == 0xF4 && 0x80 ≤ b2 && b2 ≤ 0x8F)

/-- Code point of a two-byte sequence. -/
def cp2 (b1 b2 : Nat) : Nat := (b1 - 0xC0) * 64 + (b2 - 0x80)

/-- Code point of a three-byte sequence. -/
def cp3 (b1 b2 b3 : Nat) : Nat :=
  (b1 - 0xE0) * 4096 + (b2 - 0x80) * 64 + (b3 - 0x80)

/-- Code point of a four-byte sequence. -/
def cp4 (b1 b2 b3 b4 : Nat) : Nat :=
  (b1 - 0xF0) * 262144 + (b2 - 0x80) * 4096 + (b3 - 0x80) * 64 + (b4 - 0x80)

/-- UTF-8 decoding with errors ignored, the Python bytes.decode with the
ignore error handler: every byte not part of a valid scalar sequence is
dropped and decoding resumes at the next byte. -/
def utf8DecodeIgnore : List Nat → List Char
  | [] => []
  | b1 :: t1 =>
    if b1 ≤ 0x7F then Char.ofNat b1 :: utf8DecodeIgnore t1
    else if 0xC2 ≤ b1 && b1 ≤ 0xDF then
      match t1 with
      | b2 :: t2 =>
        if isCont b2 then Char.ofNat (cp2 b1 b2) :: utf8DecodeIgnore t2
        else utf8DecodeIgnore (b2 :: t2)
      | [] => []
    else if 0xE0 ≤ b1 && b1 ≤ 0xEF then
      match t1 with
      | b2 :: b3 :: t3 =>
        if valid3Pair b1 b2 && isCont b3 then
          Char.ofNat (cp3 b1 b2 b3) :: utf8DecodeIgnore t3
        else utf8DecodeIgnore (b2 :: b3 :: t3)
      | [b2] => utf8DecodeIgnore [b2]
      | [] => []
    else if 0xF0 ≤ b1 && b1 ≤ 0xF4 then
      match t1 with
      | b2 :: b3 :: b4 :: t4 =>
        if valid4Pair b1 b2 && isCont b3 && isCont b4 then
          Char.ofNat (cp4 b1 b2 b3 b4) :: utf8DecodeIgnore t4
        else utf8DecodeIgnore (b2 :: b3 :: b4 :: t4)
      | [b2, b3] => utf8DecodeIgnore [b2, b3]
      | [b2] => utf8DecodeIgnore [b2]
      | [] => []
    else utf8DecodeIgnore t1

/-- Strict UTF-8 decoding, the default Python bytes.decode: any invalid
sequence makes the whole decode fail (UnicodeDecodeError becomes none). -/
def utf8DecodeStrict : List Nat → Option (List Char)
  | [] => some []
  | b1 :: t1 =>
    if b1 ≤ 0x7F then (utf8DecodeStrict t1).map (Char.ofNat b1 :: ·)
    else if 0xC2 ≤ b1 && b1 ≤ 0xDF then
      match t1 with
      | b2 :: t2 =>
        if isCont b2 then (utf8DecodeStrict t2).map (Char.ofNat (cp2 b1 b2) :: ·)
        else none
      | [] => none
    else if 0xE0 ≤ b1 && b1 ≤ 0xEF then
      match t1 with
      | b2 :: b3 :: t3 =>
        if valid3Pair b1 b2 && isCont b3 then
          (utf8DecodeStrict t3).map (Char.ofNat (cp3 b1 b2 b3) :: ·)
        else none
      | _ => none
    else if 0xF0 ≤ b1 && b1 ≤ 0xF4 then
      match t1 with
      | b2 :: b3 :: b4 :: t4 =>
        if valid4Pair b1 b2 && isCont b3 && isCont b4 then
          (utf8DecodeStrict t4).map (Char.ofNat (cp4 b1 b2 b3 b4) :: ·)
        else none
      | _ => none
    else none

/-- A file as seen through the file-system oracle: whether the path is a
regular file, and its raw bytes. -/
structure MdFile where
  is_file : Bool
  bytes : List Nat
deriving DecidableEq

/-- The Block dataclass of the source. -/
structure Block where
  file : Str
  start_line : Nat
  index_in_file : Nat
  content : Str
deriving DecidableEq

/-- The text read from a file, as the read_text calls of the source: a
strict UTF-8 decode, falling back on failure to the permissive decode
that ignores invalid bytes; then split into lines. -/
def readLines (f : MdFile) : List Str :=
  match utf8DecodeStrict f.bytes with
  | some t => splitlines t
  | none => splitlines (utf8DecodeIgnore f.bytes)

/-- The scanning loop of find_mermaid_blocks: one forward pass over the
lines, 1-indexed by i, with the in_block / start_line / buf / block_idx
state of the source. -/
def scanAux (p : Str) (lines : List Str) (i : Nat) (in_block : Bool)
    (start_line : Nat) (buf : List Str) (block_idx : Nat) : List Block :=
  match lines with
  | [] => []
  | line :: rest =>
    if !in_block && openFenceMatch line then
      scanAux p rest (i + 1) true i [] block_idx
    else if in_block && endFenceMatch line then
      ⟨p, start_line, block_idx + 1, joinNL buf⟩ ::
        scanAux p rest (i + 1) false start_line [] (block_idx + 1)
    else if in_block then
      scanAux p rest (i + 1) in_block start_line (buf ++ [line]) block_idx
    else
      scanAux p rest (i + 1) in_block start_line buf block_idx

/-- find_mermaid_blocks from the source: empty for paths that are not
regular files, otherwise the scan of the decoded lines. -/
def find_mermaid_blocks (fs : Str → MdFile) (path : Str) : List Block :=
  if (fs path).is_file then scanAux path (readLines (fs path)) 1 false 0 [] 0
  else []

/-- Character filter of safe_name: keep ASCII letters, digits, underscore,
dot and hyphen; everything else becomes an underscore. -/
def safeChar (c : Char) : Char :=
  let n := c.toNat
  if (65 ≤ n && n ≤ 90) || (97 ≤ n && n ≤ 122) || (48 ≤ n && n ≤ 57) ||
     n == 95 || n == 46 || n == 45 then c
  else Char.ofNat 95

/-- safe_name from the source: the regex substitution applied to the full
path string, replacing every character outside the allowed class. -/
def safe_name (p : Str) : Str := p.map safeChar

/-- Little-endian decimal digits of a natural number, with enough fuel. -/
def natDigitsRev (fuel n : Nat) : List Nat :=
  match fuel with
  | 0 => []
  | fuel + 1 => if n = 0 then [] else (n % 10) :: natDigitsRev fuel (n / 10)

/-- Decimal rendering of a natural number, as Python str. -/
def toDecimal (n : Nat) : Str :=
  if n = 0 then [Char.ofNat 48]
  else ((natDigitsRev (n + 1) n).map Nat.digitChar).reverse

/-- The 03d format of Python: decimal digits left-padded with zeros to at
least three characters. -/
def pad3 (n : Nat) : Str :=
  if n < 10 then Char.ofNat 48 :: Char.ofNat 48 :: toDecimal n
  else if n < 100 then Char.ofNat 48 :: toDecimal n
  else toDecimal n

/-- Fixed fragment of a scratch stem between the sanitized path and the
block index. -/
def blockTagStr : Str := ".block_".data

/-- Extension of a scratch input file. -/
def mmdExt : Str := ".mmd".data

/-- Extension appended to the stem for the renderer output file. -/
def svgExt : Str := ".svg".data

/-- Path separator used when the scratch directory path is joined with a
stem. -/
def sepStr : Str := [Char.ofNat 47]

/-- The scratch stem built in main for one block: sanitized document path,
the block tag, the zero-padded per-document index, and the extension. -/
def stemOf (md : Str) (idx : Nat) : Str :=
  safe_name md ++ blockTagStr ++ pad3 idx ++ mmdExt

/-- Full path of the scratch input file of one block. -/
def inFilePath (tmpdir md : Str) (idx : Nat) : Str :=
  tmpdir ++ sepStr ++ stemOf md idx

/-- Deduplication loop of expand_inputs: keep the resolved form of each
path the first time its resolved form is seen. -/
def dedupResolve (rsl : Str → Str) : List Str → List Str → List Str
  | [], _ => []
  | p :: rest, seen =>
    let rp := rsl p
    if rp ∈ seen then dedupResolve rsl rest seen
    else rp :: dedupResolve rsl rest (rp :: seen)

/-- expand_inputs from the source: glob-expand each pattern, fall back to
the literal pattern when the glob matches nothing, then de-duplicate by
resolved path while preserving order.  The glob and resolve calls are
supplied as oracles. -/
def expand_inputs (globMatch : Str → List Str) (rsl : Str → Str)
    (patterns : List Str) : List Str :=
  let out := patterns.flatMap (fun p =>
    let globbed := globMatch p
    if globbed.isEmpty then [p] else globbed)
  dedupResolve rsl out []

/-- Name of the primary renderer binary looked up on the path. -/
def mmdcName : Str := "mmdc".data

/-- Name of the package-runner fallback looked up on the path. -/
def npxName : Str := "npx".data

/-- Arguments of the npx fallback invocation. -/
def npxArgs : List Str := ["-y".data, "@mermaid-js/mermaid-cli".data, "mmdc".data]

/-- which_mmdc from the source: prefer a global mmdc binary, fall back to
npx with the mermaid-cli package, and fail when neither resolves. -/
def which_mmdc (shutilWhich : Str → Option Str) : Option (List Str) :=
  match shutilWhich mmdcName with
  | some b => some [b]
  | none =>
    match shutilWhich npxName with
    | some npx => some (npx :: npxArgs)
    | none => none

/-- Captured result of a completed subprocess. -/
structure SubprocResult where
  returncode : Int
  stdoutBytes : List Nat
  stderrBytes : List Nat
deriving DecidableEq

/-- Outcome of attempting to spawn the renderer subprocess: either the
process ran to completion, or spawning raised FileNotFoundError with the
given rendered exception text. -/
inductive SpawnOutcome where
  | completed (r : SubprocResult)
  | fileNotFound (msg : Str)
deriving DecidableEq

/-- Message text built when spawning the renderer raises. -/
def execFailMsg : Str := "Failed to execute mmdc: ".data

/-- Option flag strings of the renderer command line. -/
def dashI : Str := "-i".data

/-- Output-flag string of the renderer command line. -/
def dashO : Str := "-o".data

/-- Theme-flag string of the renderer command line. -/
def dashTheme : Str := "--theme".data

/-- Config-flag string of the renderer command line. -/
def dashConfigFile : Str := "--configFile".data

/-- The argument vector built by run_mmdc. -/
def mmdcCmd (cmd_base : List Str) (in_file out_file theme : Str)
    (config : Option Str) : List Str :=
  cmd_base ++ [dashI, in_file, dashO, out_file, dashTheme, theme] ++
    (match config with
     | some c => [dashConfigFile, c]
     | none => [])

/-- run_mmdc from the source: build the command, run it through the
subprocess oracle; success is exit status zero, and the diagnostic text is
the stderr stream if non-empty else the stdout stream, decoded with
invalid bytes ignored, and stripped. -/
def run_mmdc (subprocess : List Str → SpawnOutcome) (cmd_base : List Str)
    (in_file out_file theme : Str) (config : Option Str) : Bool × Str :=
  let cmd := mmdcCmd cmd_base in_file out_file theme config
  match subprocess cmd with
  | .completed proc =>
    let ok := proc.returncode == 0
    let msg := pyStrip (utf8DecodeIgnore
      (if proc.stderrBytes.isEmpty then proc.stdoutBytes else proc.stderrBytes))
    (ok, msg)
  | .fileNotFound e => (false, execFailMsg ++ e)

/-- Parsed command-line arguments of main. -/
structure Args where
  inputs : List Str
  config : Option Str
  theme : Str
  keep : Bool
  quiet : Bool

/-- External environment of one run: path lookup, glob expansion, path
resolution and existence, the file system, the subprocess runner and the
name the temporary directory would get. -/
structure Env where
  shutilWhich : Str → Option Str
  globMatch : Str → List Str
  resolvePath : Str → Str
  pathExists : Str → Bool
  fs : Str → MdFile
  subprocess : List Str → SpawnOutcome
  tmpdirName : Str

/-- The resolved, existence-filtered input files of a run. -/
def filesOf (env : Env) (args : Args) : List Str :=
  (expand_inputs env.globMatch env.resolvePath args.inputs).filter env.pathExists

/-- State threaded through the validation loop of main, together with the
observable traces of the run: scratch writes, renderer invocations and
the two output streams. -/
structure LoopState where
  total : Nat
  failed : Nat
  found_any : Nat
  writes : List (Str × Str)
  invocations : List (List Str)
  outLines : List Str
  errLines : List Str
deriving DecidableEq

/-- Initial loop state. -/
def initState : LoopState := ⟨0, 0, 0, [], [], [], []⟩

/-- Fixed context of the loop: the oracles and settings that do not change
from block to block. -/
structure Ctx where
  subprocess : List Str → SpawnOutcome
  cmd_base : List Str
  tmpdir : Str
  theme : Str
  config : Option Str
  quiet : Bool
  fs : Str → MdFile

/-- Leading tag of a success report line. -/
def okTag : Str := "OK   ".data

/-- Leading tag of a failure report line. -/
def errTag : Str := "ERR  ".data

/-- Colon separator of the report lines. -/
def colonStr : Str := ":".data

/-- Two spaces and an opening parenthesis of the report lines. -/
def lparStr : Str := "  (".data

/-- Closing parenthesis of the report lines. -/
def rparStr : Str := ")".data

/-- Two further spaces before the first diagnostic line. -/
def twoSpaces : Str := "  ".data

/-- Indentation of diagnostic continuation lines. -/
def indentStr : Str := "      ".data

/-- Fallback text when the renderer failed with empty diagnostics. -/
def mmdcFailedMsg : Str := "mmdc failed".data

/-- Success report line of one block. -/
def okLine (md : Str) (sl : Nat) (stem : Str) : Str :=
  okTag ++ md ++ colonStr ++ toDecimal sl ++ lparStr ++ stem ++ rparStr

/-- Failure report line of one block. -/
def errLine (md : Str) (sl : Nat) (stem : Str) (firstLine : Str) : Str :=
  errTag ++ md ++ colonStr ++ toDecimal sl ++ lparStr ++ stem ++ rparStr ++
    twoSpaces ++ firstLine

/-- The stderr lines produced for one failing block: the report line with
the first diagnostic line, followed by the indented remaining diagnostic
lines unless quiet or the diagnostic is empty. -/
def errBlockLines (md : Str) (sl : Nat) (stem : Str) (msg : Str)
    (quiet : Bool) : List Str :=
  let firstLine := if msg.isEmpty then mmdcFailedMsg else (splitlines msg).headD []
  errLine md sl stem firstLine ::
    (if !quiet && !msg.isEmpty then (splitlines msg).tail.map (indentStr ++ ·)
     else [])

/-- Body of the inner per-block loop of main: write the block content to
its scratch file, invoke the renderer, update the counters and record the
report lines. -/
def stepBlock (cx : Ctx) (md : Str) (st : LoopState) (b : Block) : LoopState :=
  let stem := stemOf md b.index_in_file
  let in_file := cx.tmpdir ++ sepStr ++ stem
  let out_file := cx.tmpdir ++ sepStr ++ (stem ++ svgExt)
  let res := run_mmdc cx.subprocess cx.cmd_base in_file out_file cx.theme cx.config
  { total := st.total + 1
    failed := st.failed + (if res.1 then 0 else 1)
    found_any := st.found_any
    writes := st.writes ++ [(in_file, b.content)]
    invocations := st.invocations ++
      [mmdcCmd cx.cmd_base in_file out_file cx.theme cx.config]
    outLines := st.outLines ++
      (if res.1 && !cx.quiet then [okLine md b.start_line stem] else [])
    errLines := st.errLines ++
      (if res.1 then [] else errBlockLines md b.start_line stem res.2 cx.quiet) }

/-- Body of the outer per-document loop of main: extract the blocks, skip
the document silently when there are none, otherwise mark that blocks were
found and fold the per-block body over them. -/
def stepDoc (cx : Ctx) (st : LoopState) (md : Str) : LoopState :=
  let blocks := find_mermaid_blocks cx.fs md
  if blocks.isEmpty then st
  else blocks.foldl (stepBlock cx md) { st with found_any := 1 }

/-- The whole validation loop over the resolved input files. -/
def runDocs (cx : Ctx) (files : List Str) : LoopState :=
  files.foldl (stepDoc cx) initState

/-- Error line printed when neither mmdc nor npx resolves. -/
def errNoMmdc1 : Str := "ERROR: `mmdc` not found, and `npx` not available.".data

/-- Hint line printed when neither mmdc nor npx resolves. -/
def errNoMmdc2 : Str := "Install globally with: npm i -g @mermaid-js/mermaid-cli".data

/-- Error line prefix printed when the config path does not exist. -/
def errConfigPrefixed : Str := "ERROR: config file not found: ".data

/-- Error line printed when no input file resolves. -/
def errNoInputs : Str := "ERROR: no input files found.".data

/-- Line printed when no document contained any block. -/
def noBlocksLine : Str := "No Mermaid blocks found in inputs.".data

/-- Separator line printed before the summary. -/
def dashesLine : Str := "----".data

/-- Checked prefix of the summary line. -/
def checkedPrefixed : Str := "Checked: ".data

/-- Failed prefix of the summary line. -/
def failedPrefixed : Str := "   Failed: ".data

/-- The summary line of a run. -/
def summaryLine (total failed : Nat) : Str :=
  checkedPrefixed ++ toDecimal total ++ failedPrefixed ++ toDecimal failed

/-- Observable outcome of one run of main: the process exit status, both
output streams, the scratch writes, the renderer invocations, the final
counters, and whether the scratch directory was ever created. -/
structure RunResult where
  exit : Nat
  outLines : List Str
  errLines : List Str
  writes : List (Str × Str)
  invocations : List (List Str)
  total : Nat
  failed : Nat
  madeTmpdir : Bool
deriving DecidableEq

/-- Part of main after the environment checks: resolve the inputs, stop
with status 2 when nothing resolves, otherwise create the scratch
directory, run the loop and build the final report and exit status. -/
def mainRun (env : Env) (args : Args) (cmd_base : List Str) : RunResult :=
  let files := filesOf env args
  if files.isEmpty then
    ⟨2, [], [errNoInputs], [], [], 0, 0, false⟩
  else
    let cx : Ctx := ⟨env.subprocess, cmd_base, env.tmpdirName, args.theme,
      args.config, args.quiet, env.fs⟩
    let fin := runDocs cx files
    if fin.found_any = 0 then
      ⟨0, fin.outLines ++ [noBlocksLine], fin.errLines, fin.writes,
        fin.invocations, fin.total, fin.failed, true⟩
    else
      ⟨if fin.failed = 0 then 0 else 1,
        fin.outLines ++ [dashesLine, summaryLine fin.total fin.failed],
        fin.errLines, fin.writes, fin.invocations, fin.total, fin.failed, true⟩

/-- main from the source: environment checks in order (renderer
resolution, config existence, input resolution), then the validation loop
and the final summary. -/
def main (env : Env) (args : Args) : RunResult :=
  match which_mmdc env.shutilWhich with
  | none => ⟨2, [], [errNoMmdc1, errNoMmdc2], [], [], 0, 0, false⟩
  | some cmd_base =>
    match args.config with
    | some c =>
      if env.pathExists c then mainRun env args cmd_base
      else ⟨2, [], [errConfigPrefixed ++ c], [], [], 0, 0, false⟩
    | none => mainRun env args cmd_base

/-! Lemmas about the block scanner. -/

lemma getD_append_left' {α : Type _} (l1 l2 : List α) (n : Nat) (d : α)
    (h : n < l1.length) : (l1 ++ l2).getD n d = l1.getD n d := by
  induction l1 generalizing n with
  | nil => simp at h
  | cons a l ih =>
    cases n with
    | zero => simp
    | succ m =>
      simp only [List.cons_append, List.getD_cons_succ]
      exact ih m (by simpa using h)

lemma getD_append_right' {α : Type _} (l1 l2 : List α) (n : Nat) (d : α) :
    (l1 ++ l2).getD (l1.length + n) d = l2.getD n d := by
  induction l1 generalizing n with
  | nil => simp
  | cons a l ih =>
    simpa [List.cons_append, Nat.succ_add, List.getD_cons_succ] using ih n

/-- Indices of the scanner output continue the running block index. -/
lemma scanAux_map_index (rest : List Str) : ∀ (p : Str) (i : Nat)
    (ib : Bool) (s : Nat) (buf : List Str) (k : Nat),
    (scanAux p rest i ib s buf k).map Block.index_in_file
      = List.range' (k + 1) (scanAux p rest i ib s buf k).length := by
  induction rest with
  | nil => intro p i ib s buf k; simp [scanAux]
  | cons line rest ih =>
    intro p i ib s buf k
    simp only [scanAux]
    by_cases h1 : (!ib && openFenceMatch line) = true
    · simp only [h1, if_true]
      exact ih p (i + 1) true i [] k
    · simp only [h1, if_false, Bool.false_eq_true]
      by_cases h2 : (ib && endFenceMatch line) = true
      · simp only [h2, if_true, List.map_cons, List.length_cons]
        have hr : List.range' (k + 1)
            ((scanAux p rest (i + 1) false s [] (k + 1)).length + 1)
            = (k + 1) :: List.range' (k + 1 + 1)
              (scanAux p rest (i + 1) false s [] (k + 1)).length := rfl
        rw [hr]
        exact congrArg (List.cons (k + 1)) (ih p (i + 1) false s [] (k + 1))
      · simp only [h2, if_false, Bool.false_eq_true]
        by_cases h3 : ib = true
        · subst h3
          simp only [if_true]
          exact ih p (i + 1) true s (buf ++ [line]) k
        · have h3' : ib = false := by revert h3; cases ib <;> simp
          subst h3'
          simp only [Bool.false_eq_true, if_false]
          exact ih p (i + 1) false s buf k

/-- While inside a block, a tail of lines containing no closing fence
produces no further block. -/
lemma scanAux_no_close (rest : List Str) : ∀ (p : Str) (i s : Nat)
    (buf : List Str) (k : Nat), (∀ l ∈ rest, endFenceMatch l = false) →
    scanAux p rest i true s buf k = [] := by
  induction rest with
  | nil => intro p i s buf k _; simp [scanAux]
  | cons line rest ih =>
    intro p i s buf k h
    have hline : endFenceMatch line = false := h line (List.mem_cons_self _ _)
    simp only [scanAux, Bool.not_true, Bool.false_and, Bool.false_eq_true,
      if_false, Bool.true_and, hline, if_true]
    exact ih p (i + 1) s (buf ++ [line]) k (fun l hl => h l (List.mem_cons_of_mem _ hl))

/-- Round-trip property of one block with respect to the line list of its
document: there is a closing line j such that the opening fence sits at
the recorded start line, line j closes, and the content is exactly the
newline-join of the lines strictly between the two fences. -/
def roundTrips (lines : List Str) (b : Block) : Prop :=
  ∃ j, b.start_line < j ∧ j ≤ lines.length ∧ 1 ≤ b.start_line ∧
    openFenceMatch (lines.getD (b.start_line - 1) []) = true ∧
    endFenceMatch (lines.getD (j - 1) []) = true ∧
    b.content = joinNL ((lines.drop b.start_line).take (j - 1 - b.start_line))

/-- Dropping at a position inside the first summand of an append. -/
lemma drop_append_of_le {α : Type _} (l1 l2 : List α) (n : Nat)
    (h : n ≤ l1.length) : (l1 ++ l2).drop n = l1.drop n ++ l2 := by
  rw [List.drop_append_eq_append_drop, Nat.sub_eq_zero_of_le h, List.drop_zero]

/-- Every block produced by the scanner round-trips, given the invariant
that while inside a block the buffer holds exactly the lines after the
recorded opening fence. -/
lemma scanAux_roundTrips (rest : List Str) : ∀ (pre : List Str) (p : Str)
    (ib : Bool) (s k : Nat) (buf : List Str),
    (ib = true → 1 ≤ s ∧ s ≤ pre.length ∧
      openFenceMatch (pre.getD (s - 1) []) = true ∧ buf = pre.drop s) →
    ∀ b ∈ scanAux p rest (pre.length + 1) ib s buf k,
      roundTrips (pre ++ rest) b := by
  induction rest with
  | nil => intro pre p ib s k buf _ b hb; simp [scanAux] at hb
  | cons line rest ih =>
    intro pre p ib s k buf hinv b hb
    rw [scanAux] at hb
    have hre : pre ++ line :: rest = (pre ++ [line]) ++ rest := by simp
    by_cases h1 : (!ib && openFenceMatch line) = true
    · simp only [h1, if_true] at hb
      have hopen : openFenceMatch line = true := by
        revert h1; cases openFenceMatch line <;> simp
      rw [hre]
      refine ih (pre ++ [line]) p true (pre.length + 1) k [] ?_ b ?_
      · intro _
        refine ⟨Nat.le_add_left 1 _, by simp, ?_, ?_⟩
        · have : (pre ++ [line]).getD (pre.length + 1 - 1) [] = line := by
            simp [getD_append_right' pre [line] 0 []]
          rw [this]; exact hopen
        · rw [List.drop_eq_nil_of_le (by simp)]
      · simpa [List.length_append] using hb
    · simp only [h1, if_false, Bool.false_eq_true] at hb
      by_cases h2 : (ib && endFenceMatch line) = true
      · simp only [h2, if_true] at hb
        obtain ⟨hib, hend⟩ : ib = true ∧ endFenceMatch line = true := by
          simpa using h2
        rcases hinv hib with ⟨hs1, hsle, hsopen, hbuf⟩
        rcases List.mem_cons.mp hb with hb0 | hbtail
        · subst hb0
          dsimp only [roundTrips]
          refine ⟨pre.length + 1, by omega, by simp, hs1, ?_, ?_, ?_⟩
          · have hlt : s - 1 < pre.length := by omega
            rw [getD_append_left' pre (line :: rest) (s - 1) [] hlt]
            exact hsopen
          · have : (pre ++ line :: rest).getD (pre.length + 1 - 1) [] = line := by
              simpa using getD_append_right' pre (line :: rest) 0 []
            rw [this]; exact hend
          · show joinNL buf = _
            rw [hbuf]
            congr 1
            rw [drop_append_of_le pre (line :: rest) s hsle]
            have hlen : (pre.drop s).length = pre.length - s := by simp
            rw [show pre.length + 1 - 1 - s = pre.length - s from by omega,
              List.take_append_eq_append_take, hlen, List.take_of_length_le (by simp),
              Nat.sub_self, List.take_zero, List.append_nil]
        · rw [hre]
          refine ih (pre ++ [line]) p false s (k + 1) [] (by simp) b ?_
          simpa [List.length_append] using hbtail
      · simp only [h2, if_false, Bool.false_eq_true] at hb
        by_cases h3 : ib = true
        · subst h3
          simp only [if_true] at hb
          rcases hinv rfl with ⟨hs1, hsle, hsopen, hbuf⟩
          rw [hre]
          refine ih (pre ++ [line]) p true s k (buf ++ [line]) ?_ b ?_
          · intro _
            refine ⟨hs1, by simp; omega, ?_, ?_⟩
            · rw [getD_append_left' pre [line] (s - 1) [] (by omega)]
              exact hsopen
            · rw [drop_append_of_le pre [line] s hsle, hbuf]
          · simpa [List.length_append] using hb
        · have h3' : ib = false := by revert h3; cases ib <;> simp
          subst h3'
          simp only [Bool.false_eq_true, if_false] at hb
          rw [hre]
          refine ih (pre ++ [line]) p false s k buf (by simp) b ?_
          simpa [List.length_append] using hb

/-- Round-trip property of find_mermaid_blocks. -/
lemma find_roundTrips (fs : Str → MdFile) (path : Str) :
    ∀ b ∈ find_mermaid_blocks fs path, roundTrips (readLines (fs path)) b := by
  intro b hb
  rw [find_mermaid_blocks] at hb
  by_cases hf : (fs path).is_file = true
  · rw [if_pos hf] at hb
    have := scanAux_roundTrips (readLines (fs path)) [] path false 0 0 []
      (by intro h; cases h) b
    simpa using this (by simpa using hb)
  · simp [hf] at hb

/-! Lemmas about the validation loop of main. -/

/-- Output file path of one block. -/
def outFilePath (tmpdir md : Str) (idx : Nat) : Str :=
  tmpdir ++ sepStr ++ (stemOf md idx ++ svgExt)

/-- The renderer invocation result of one block of one document. -/
def blockRun (cx : Ctx) (md : Str) (b : Block) : Bool × Str :=
  run_mmdc cx.subprocess cx.cmd_base (inFilePath cx.tmpdir md b.index_in_file)
    (outFilePath cx.tmpdir md b.index_in_file) cx.theme cx.config

/-- Whether the renderer invocation of one block succeeded. -/
def blockOk (cx : Ctx) (md : Str) (b : Block) : Bool := (blockRun cx md b).1

/-- The command vector of the renderer invocation of one block. -/
def blockCmd (cx : Ctx) (md : Str) (b : Block) : List Str :=
  mmdcCmd cx.cmd_base (inFilePath cx.tmpdir md b.index_in_file)
    (outFilePath cx.tmpdir md b.index_in_file) cx.theme cx.config

/-- The scratch write of one block. -/
def blockWrite (cx : Ctx) (md : Str) (b : Block) : Str × Str :=
  (inFilePath cx.tmpdir md b.index_in_file, b.content)

/-- The stdout lines of one block. -/
def blockOut (cx : Ctx) (md : Str) (b : Block) : List Str :=
  if blockOk cx md b && !cx.quiet then
    [okLine md b.start_line (stemOf md b.index_in_file)]
  else []

/-- The stderr lines of one block. -/
def blockErr (cx : Ctx) (md : Str) (b : Block) : List Str :=
  if blockOk cx md b then []
  else errBlockLines md b.start_line (stemOf md b.index_in_file)
    (blockRun cx md b).2 cx.quiet

/-- The blocks extracted from one document in the loop. -/
def docBlocks (cx : Ctx) (md : Str) : List Block :=
  find_mermaid_blocks cx.fs md

/-- The blocks of one document whose renderer invocation failed. -/
def docFails (cx : Ctx) (md : Str) : List Block :=
  (docBlocks cx md).filter (fun b => !blockOk cx md b)

/-- One step of the per-block loop, written as the delta it adds to the
state. -/
lemma stepBlock_eq (cx : Ctx) (md : Str) (st : LoopState) (b : Block) :
    stepBlock cx md st b =
      ⟨st.total + 1, st.failed + (if blockOk cx md b then 0 else 1),
        st.found_any, st.writes ++ [blockWrite cx md b],
        st.invocations ++ [blockCmd cx md b],
        st.outLines ++ blockOut cx md b, st.errLines ++ blockErr cx md b⟩ := by
  simp only [stepBlock, blockOk, blockRun, blockCmd, blockWrite, blockOut,
    blockErr, inFilePath, outFilePath]

/-- The per-block fold over a block list, characterised by deltas. -/
lemma foldBlocks_eq (cx : Ctx) (md : Str) (bs : List Block) : ∀ st : LoopState,
    bs.foldl (stepBlock cx md) st =
      ⟨st.total + bs.length,
        st.failed + (bs.filter (fun b => !blockOk cx md b)).length,
        st.found_any,
        st.writes ++ bs.map (blockWrite cx md),
        st.invocations ++ bs.map (blockCmd cx md),
        st.outLines ++ bs.flatMap (blockOut cx md),
        st.errLines ++ bs.flatMap (blockErr cx md)⟩ := by
  induction bs with
  | nil => intro st; simp
  | cons b bs ih =>
    intro st
    rw [List.foldl_cons, stepBlock_eq, ih]
    by_cases h : blockOk cx md b = true
    · simp [h, List.filter_cons]
      omega
    · simp [h, List.filter_cons]
      omega

/-- One step of the per-document loop, written as the delta it adds. -/
lemma stepDoc_eq (cx : Ctx) (st : LoopState) (md : Str) :
    stepDoc cx st md =
      ⟨st.total + (docBlocks cx md).length,
        st.failed + (docFails cx md).length,
        (if (docBlocks cx md).isEmpty then st.found_any else 1),
        st.writes ++ (docBlocks cx md).map (blockWrite cx md),
        st.invocations ++ (docBlocks cx md).map (blockCmd cx md),
        st.outLines ++ (docBlocks cx md).flatMap (blockOut cx md),
        st.errLines ++ (docBlocks cx md).flatMap (blockErr cx md)⟩ := by
  rw [stepDoc]
  by_cases h : (find_mermaid_blocks cx.fs md).isEmpty = true
  · have h' : find_mermaid_blocks cx.fs md = [] := by
      simpa [List.isEmpty_iff] using h
    simp [h, docBlocks, docFails, h']
  · have h' : (docBlocks cx md).isEmpty = false := by
      simpa [docBlocks] using h
    simp only [h, Bool.false_eq_true, if_false, h']
    rw [foldBlocks_eq]
    rfl

/-- The whole document fold, characterised by deltas. -/
lemma foldDocs_eq (cx : Ctx) (ds : List Str) : ∀ st : LoopState,
    ds.foldl (stepDoc cx) st =
      ⟨st.total + (ds.flatMap (docBlocks cx)).length,
        st.failed + (ds.flatMap (docFails cx)).length,
        (if ds.all (fun d => (docBlocks cx d).isEmpty) then st.found_any else 1),
        st.writes ++ ds.flatMap (fun d => (docBlocks cx d).map (blockWrite cx d)),
        st.invocations ++ ds.flatMap (fun d => (docBlocks cx d).map (blockCmd cx d)),
        st.outLines ++ ds.flatMap (fun d => (docBlocks cx d).flatMap (blockOut cx d)),
        st.errLines ++ ds.flatMap (fun d => (docBlocks cx d).flatMap (blockErr cx d))⟩ := by
  induction ds with
  | nil => intro st; simp
  | cons d ds ih =>
    intro st
    rw [List.foldl_cons, stepDoc_eq, ih]
    simp only [List.flatMap_cons, List.length_append, List.all_cons,
      LoopState.mk.injEq]
    refine ⟨by omega, by omega, ?_, by simp, by simp, by simp, by simp⟩
    by_cases h : (docBlocks cx d).isEmpty = true
    · simp [h]
    · simp [h]

/-- The final state of the loop of main. -/
lemma runDocs_eq (cx : Ctx) (ds : List Str) :
    runDocs cx ds =
      ⟨(ds.flatMap (docBlocks cx)).length,
        (ds.flatMap (docFails cx)).length,
        (if ds.all (fun d => (docBlocks cx d).isEmpty) then 0 else 1),
        ds.flatMap (fun d => (docBlocks cx d).map (blockWrite cx d)),
        ds.flatMap (fun d => (docBlocks cx d).map (blockCmd cx d)),
        ds.flatMap (fun d => (docBlocks cx d).flatMap (blockOut cx d)),
        ds.flatMap (fun d => (docBlocks cx d).flatMap (blockErr cx d))⟩ := by
  rw [runDocs, foldDocs_eq]
  simp [initState]

/-! Lemmas about input expansion. -/

/-- Every element of the deduplicated list is the resolved form of some
input element. -/
lemma mem_dedupResolve (rsl : Str → Str) (l : List Str) : ∀ (seen : List Str)
    (x : Str), x ∈ dedupResolve rsl l seen → ∃ p ∈ l, x = rsl p := by
  induction l with
  | nil => intro seen x hx; simp [dedupResolve] at hx
  | cons p rest ih =>
    intro seen x hx
    rw [dedupResolve] at hx
    by_cases h : rsl p ∈ seen
    · rcases ih seen x (by simpa [h] using hx) with ⟨q, hq, hxq⟩
      exact ⟨q, List.mem_cons_of_mem _ hq, hxq⟩
    · simp only [h, if_false] at hx
      rcases List.mem_cons.mp hx with hx0 | hxr
      · exact ⟨p, List.mem_cons_self _ _, hx0⟩
      · rcases ih (rsl p :: seen) x hxr with ⟨q, hq, hxq⟩
        exact ⟨q, List.mem_cons_of_mem _ hq, hxq⟩

/-- Nothing already seen is emitted by the deduplication loop. -/
lemma dedupResolve_not_seen (rsl : Str → Str) (l : List Str) :
    ∀ (seen : List Str) (x : Str), x ∈ dedupResolve rsl l seen → x ∉ seen := by
  induction l with
  | nil => intro seen x hx; simp [dedupResolve] at hx
  | cons p rest ih =>
    intro seen x hx
    rw [dedupResolve] at hx
    by_cases h : rsl p ∈ seen
    · exact ih seen x (by simpa [h] using hx)
    · simp only [h, if_false] at hx
      rcases List.mem_cons.mp hx with hx0 | hxr
      · subst hx0; exact h
      · intro hxs
        exact ih (rsl p :: seen) x hxr (List.mem_cons_of_mem _ hxs)

/-- The deduplication loop emits no duplicates. -/
lemma dedupResolve_nodup (rsl : Str → Str) (l : List Str) :
    ∀ seen : List Str, (dedupResolve rsl l seen).Nodup := by
  induction l with
  | nil => intro seen; simp [dedupResolve]
  | cons p rest ih =>
    intro seen
    rw [dedupResolve]
    by_cases h : rsl p ∈ seen
    · simpa [h] using ih seen
    · simp only [h, if_false]
      refine List.nodup_cons.mpr ⟨?_, ih _⟩
      intro hmem
      exact dedupResolve_not_seen rsl rest (rsl p :: seen) (rsl p) hmem
        (List.mem_cons_self _ _)

/-- The expanded input list has no duplicates. -/
lemma expand_inputs_nodup (g : Str → List Str) (rsl : Str → Str)
    (pats : List Str) : (expand_inputs g rsl pats).Nodup :=
  dedupResolve_nodup rsl _ []

/-- The resolved, filtered file list of a run has no duplicates. -/
lemma filesOf_nodup (env : Env) (args : Args) : (filesOf env args).Nodup :=
  (expand_inputs_nodup _ _ _).filter _

/-- Every expanded input is the resolved form of a glob match or of a
literal pattern whose glob matched nothing. -/
lemma mem_expand_inputs (g : Str → List Str) (rsl : Str → Str)
    (pats : List Str) (x : Str) (hx : x ∈ expand_inputs g rsl pats) :
    ∃ p ∈ pats, (g p = [] ∧ x = rsl p) ∨ ∃ m ∈ g p, x = rsl m := by
  rcases mem_dedupResolve rsl _ [] x hx with ⟨q, hq, hxq⟩
  rcases List.mem_flatMap.mp hq with ⟨p, hp, hqp⟩
  by_cases h : (g p).isEmpty = true
  · have hg : g p = [] := by simpa [List.isEmpty_iff] using h
    have hqp' : q = p := by
      rw [hg] at hqp
      simpa using hqp
    refine ⟨p, hp, Or.inl ⟨hg, ?_⟩⟩
    rw [hxq, hqp']
  · simp only [h, Bool.false_eq_true, if_false] at hqp
    exact ⟨p, hp, Or.inr ⟨q, hqp, hxq⟩⟩

/-! Lemmas about decimal formatting and scratch-stem uniqueness. -/

/-- Value of a little-endian decimal digit list. -/
def decValRev : List Nat → Nat
  | [] => 0
  | d :: t => d + 10 * decValRev t

/-- Value of a decimal string. -/
def decVal (s : Str) : Nat :=
  decValRev ((s.map (fun c => c.toNat - 48)).reverse)

lemma natDigitsRev_val (fuel : Nat) : ∀ n : Nat, n ≤ fuel →
    decValRev (natDigitsRev fuel n) = n := by
  induction fuel with
  | zero =>
    intro n h
    have : n = 0 := Nat.le_zero.mp h
    subst this
    simp [natDigitsRev, decValRev]
  | succ fuel ih =>
    intro n h
    rw [natDigitsRev]
    by_cases h0 : n = 0
    · simp [h0, decValRev]
    · simp only [h0, if_false]
      rw [decValRev, ih (n / 10) (by omega)]
      omega

lemma natDigitsRev_lt10 (fuel : Nat) : ∀ n : Nat, ∀ d ∈ natDigitsRev fuel n,
    d < 10 := by
  induction fuel with
  | zero => intro n d hd; simp [natDigitsRev] at hd
  | succ fuel ih =>
    intro n d hd
    rw [natDigitsRev] at hd
    by_cases h0 : n = 0
    · simp [h0] at hd
    · simp only [h0, if_false] at hd
      rcases List.mem_cons.mp hd with h | h
      · omega
      · exact ih (n / 10) d h

lemma digitChar_toNat : ∀ d : Nat, d < 10 → (Nat.digitChar d).toNat = 48 + d := by
  decide

/-- Every character of a decimal rendering is an ASCII digit. -/
lemma toDecimal_digits (n : Nat) : ∀ c ∈ toDecimal n,
    48 ≤ c.toNat ∧ c.toNat ≤ 57 := by
  intro c hc
  rw [toDecimal] at hc
  by_cases h0 : n = 0
  · simp only [h0, if_true] at hc
    rcases List.mem_singleton.mp hc with rfl
    constructor <;> decide
  · simp only [h0, if_false] at hc
    rcases List.mem_map.mp (List.mem_reverse.mp hc) with ⟨d, hd, hcd⟩
    have hlt := natDigitsRev_lt10 (n + 1) n d hd
    rw [← hcd, digitChar_toNat d hlt]
    omega

/-- Every character of a zero-padded index is an ASCII digit. -/
lemma pad3_digits (n : Nat) : ∀ c ∈ pad3 n, 48 ≤ c.toNat ∧ c.toNat ≤ 57 := by
  intro c hc
  rw [pad3] at hc
  have h48 : (Char.ofNat 48).toNat = 48 := by decide
  by_cases h1 : n < 10
  · simp only [h1, if_true] at hc
    rcases List.mem_cons.mp hc with h | h
    · subst h; omega
    · rcases List.mem_cons.mp h with h | h
      · subst h; omega
      · exact toDecimal_digits n c h
  · simp only [h1, if_false] at hc
    by_cases h2 : n < 100
    · simp only [h2, if_true] at hc
      rcases List.mem_cons.mp hc with h | h
      · subst h; omega
      · exact toDecimal_digits n c h
    · simp only [h2, if_false] at hc
      exact toDecimal_digits n c hc

lemma decVal_toDecimal (n : Nat) : decVal (toDecimal n) = n := by
  rw [toDecimal]
  by_cases h0 : n = 0
  · subst h0
    simp [decVal, decValRev]
  · simp only [h0, if_false, decVal, List.map_reverse, List.reverse_reverse,
      List.map_map]
    have hmap : (natDigitsRev (n + 1) n).map
        ((fun c => c.toNat - 48) ∘ Nat.digitChar) = natDigitsRev (n + 1) n := by
      rw [List.map_congr_left (g := id), List.map_id]
      intro d hd
      have hlt := natDigitsRev_lt10 (n + 1) n d hd
      simp [Function.comp, digitChar_toNat d hlt]
    rw [hmap]
    exact natDigitsRev_val (n + 1) n (by omega)

lemma decValRev_append_zero (l : List Nat) :
    decValRev (l ++ [0]) = decValRev l := by
  induction l with
  | nil => simp [decValRev]
  | cons d t ih => simp [decValRev, ih]

lemma decVal_cons_zero (s : Str) : decVal (Char.ofNat 48 :: s) = decVal s := by
  simp only [decVal, List.map_cons, List.reverse_cons]
  have : (Char.ofNat 48).toNat - 48 = 0 := by decide
  rw [this, decValRev_append_zero]

lemma decVal_pad3 (n : Nat) : decVal (pad3 n) = n := by
  rw [pad3]
  by_cases h1 : n < 10
  · simp only [h1, if_true, decVal_cons_zero, decVal_toDecimal]
  · simp only [h1, if_false]
    by_cases h2 : n < 100
    · simp only [h2, if_true, decVal_cons_zero, decVal_toDecimal]
    · simp only [h2, if_false, decVal_toDecimal]

/-- The zero-padded index rendering is injective. -/
lemma pad3_inj {a b : Nat} (h : pad3 a = pad3 b) : a = b := by
  have := congrArg decVal h
  rwa [decVal_pad3, decVal_pad3] at this

/-- Matching two digit runs terminated by an underscore: the runs and the
tails agree. -/
lemma digits_umatch (di : Str) : ∀ (dj rA rB : Str),
    (∀ c ∈ di, 48 ≤ c.toNat ∧ c.toNat ≤ 57) →
    (∀ c ∈ dj, 48 ≤ c.toNat ∧ c.toNat ≤ 57) →
    di ++ Char.ofNat 95 :: rA = dj ++ Char.ofNat 95 :: rB →
    di = dj ∧ rA = rB := by
  induction di with
  | nil =>
    intro dj rA rB _ hdj h
    cases dj with
    | nil => simpa using h
    | cons c dj' =>
      exfalso
      simp only [List.nil_append, List.cons_append, List.cons.injEq] at h
      rcases hdj c (List.mem_cons_self _ _) with ⟨_, hle⟩
      rw [← h.1] at hle
      revert hle; decide
  | cons c di' ih =>
    intro dj rA rB hdi hdj h
    cases dj with
    | nil =>
      exfalso
      simp only [List.nil_append, List.cons_append, List.cons.injEq] at h
      rcases hdi c (List.mem_cons_self _ _) with ⟨_, hle⟩
      rw [h.1] at hle
      revert hle; decide
    | cons c2 dj' =>
      simp only [List.cons_append, List.cons.injEq] at h
      rcases h with ⟨hc, ht⟩
      rcases ih dj' rA rB (fun x hx => hdi x (List.mem_cons_of_mem _ hx))
        (fun x hx => hdj x (List.mem_cons_of_mem _ hx)) ht with ⟨h1, h2⟩
      exact ⟨by rw [hc, h1], h2⟩

/-- Two equal scratch stems come from equal sanitized paths and equal
indices. -/
lemma stemOf_inj {a b : Str} {i j : Nat} (h : stemOf a i = stemOf b j) :
    safe_name a = safe_name b ∧ i = j := by
  have hrev := congrArg List.reverse h
  simp only [stemOf, List.reverse_append, List.append_assoc] at hrev
  have hext : mmdExt.reverse ++ ((pad3 i).reverse ++ (blockTagStr.reverse ++
      (safe_name a).reverse)) = mmdExt.reverse ++ ((pad3 j).reverse ++
      (blockTagStr.reverse ++ (safe_name b).reverse)) := by
    simpa [List.append_assoc] using hrev
  have h2 := List.append_cancel_left hext
  have hbt : blockTagStr.reverse = Char.ofNat 95 :: "kcolb.".data := by decide
  rw [hbt] at h2
  simp only [List.cons_append] at h2
  have h3 := digits_umatch ((pad3 i).reverse) ((pad3 j).reverse)
    ("kcolb.".data ++ (safe_name a).reverse)
    ("kcolb.".data ++ (safe_name b).reverse)
    (fun c hc => pad3_digits i c (List.mem_reverse.mp hc))
    (fun c hc => pad3_digits j c (List.mem_reverse.mp hc))
    (by simpa [List.append_assoc] using h2)
  rcases h3 with ⟨hp, hs⟩
  constructor
  · have := List.append_cancel_left hs
    exact List.reverse_injective this
  · exact pad3_inj (List.reverse_injective hp)

/-- Two equal scratch input paths under the same scratch directory come
from equal sanitized paths and equal indices. -/
lemma inFilePath_inj {td a b : Str} {i j : Nat}
    (h : inFilePath td a i = inFilePath td b j) :
    safe_name a = safe_name b ∧ i = j := by
  rw [inFilePath, inFilePath, List.append_assoc, List.append_assoc] at h
  have h1 : sepStr ++ stemOf a i = sepStr ++ stemOf b j :=
    List.append_cancel_left h
  exact stemOf_inj (List.append_cancel_left h1)

/-! Characterisation of main. -/

/-- Whether the config check of main passes. -/
def configOkB (env : Env) (args : Args) : Bool :=
  match args.config with
  | some c => env.pathExists c
  | none => true

/-- The loop context main builds once the environment checks pass; the
command base defaults to the empty vector when the renderer is
unresolvable, in which case the loop is never reached. -/
def ctxOf (env : Env) (args : Args) : Ctx :=
  ⟨env.subprocess, (which_mmdc env.shutilWhich).getD [], env.tmpdirName,
    args.theme, args.config, args.quiet, env.fs⟩

/-- Whether the run stops with an environment or usage error. -/
def envErrorB (env : Env) (args : Args) : Bool :=
  (which_mmdc env.shutilWhich).isNone || !configOkB env args ||
    (filesOf env args).isEmpty

lemma main_no_mmdc (env : Env) (args : Args)
    (h : which_mmdc env.shutilWhich = none) :
    main env args = ⟨2, [], [errNoMmdc1, errNoMmdc2], [], [], 0, 0, false⟩ := by
  rw [main, h]

lemma main_bad_config (env : Env) (args : Args) (cb : List Str) (c : Str)
    (h : which_mmdc env.shutilWhich = some cb) (hc : args.config = some c)
    (he : env.pathExists c = false) :
    main env args = ⟨2, [], [errConfigPrefixed ++ c], [], [], 0, 0, false⟩ := by
  rw [main, h, hc]
  simp [he]

lemma main_eq_mainRun (env : Env) (args : Args) (cb : List Str)
    (h : which_mmdc env.shutilWhich = some cb)
    (hc : configOkB env args = true) :
    main env args = mainRun env args cb := by
  rw [main, h]
  match hcfg : args.config with
  | none => rfl
  | some c =>
    have hc' : env.pathExists c = true := by
      rw [configOkB, hcfg] at hc
      exact hc
    simp [hc']

lemma mainRun_no_files (env : Env) (args : Args) (cb : List Str)
    (h : (filesOf env args).isEmpty = true) :
    mainRun env args cb = ⟨2, [], [errNoInputs], [], [], 0, 0, false⟩ := by
  rw [mainRun, if_pos h]

/-- The run result once all environment checks pass, fully characterised
through the loop-state spec. -/
lemma mainRun_spec (env : Env) (args : Args) (cb : List Str)
    (hne : (filesOf env args).isEmpty = false) :
    mainRun env args cb =
      (let cx : Ctx := ⟨env.subprocess, cb, env.tmpdirName, args.theme,
        args.config, args.quiet, env.fs⟩
       let fin := runDocs cx (filesOf env args)
       ⟨(if fin.found_any = 0 then 0 else if fin.failed = 0 then 0 else 1),
        fin.outLines ++ (if fin.found_any = 0 then [noBlocksLine]
          else [dashesLine, summaryLine fin.total fin.failed]),
        fin.errLines, fin.writes, fin.invocations, fin.total, fin.failed,
        true⟩) := by
  rw [mainRun, if_neg (by simp [hne])]
  by_cases h0 : (runDocs ⟨env.subprocess, cb, env.tmpdirName, args.theme,
      args.config, args.quiet, env.fs⟩ (filesOf env args)).found_any = 0
  · simp [h0]
  · simp [h0]

/-! Characterisation of the close-fence pattern. -/

lemma dropExact_eq_some (pat : Str) : ∀ (l r : Str),
    dropExact pat l = some r ↔ l = pat ++ r := by
  induction pat with
  | nil =>
    intro l r
    simp [dropExact, eq_comm]
  | cons c ps ih =>
    intro l r
    cases l with
    | nil => simp [dropExact]
    | cons x xs =>
      rw [dropExact]
      by_cases hx : x = c
      · simp only [hx, if_true, List.cons_append, List.cons.injEq, true_and]
        exact ih xs r
      · simp [hx]

lemma dropWhile_append_all {p : Char → Bool} (ws x : Str)
    (h : ∀ c ∈ ws, p c = true) :
    (ws ++ x).dropWhile p = x.dropWhile p := by
  induction ws with
  | nil => simp
  | cons c cs ih =>
    simp only [List.cons_append, List.dropWhile_cons,
      h c (List.mem_cons_self _ _), if_true]
    exact ih (fun d hd => h d (List.mem_cons_of_mem _ hd))

lemma pyIsSpace_btick : pyIsSpace btick = false := by decide

/-- The close-fence regex accepts exactly the lines made of optional
whitespace, exactly three backticks, and optional whitespace. -/
lemma endFenceMatch_iff (l : Str) : endFenceMatch l = true ↔
    ∃ ws1 ws2 : Str, (∀ c ∈ ws1, pyIsSpace c = true) ∧
      (∀ c ∈ ws2, pyIsSpace c = true) ∧ l = ws1 ++ fence3 ++ ws2 := by
  constructor
  · intro h
    rw [endFenceMatch, matchTagLine] at h
    rcases hde : dropExact (fence3 ++ []) (l.dropWhile pyIsSpace) with _ | r
    · rw [hde] at h; cases h
    · rw [hde] at h
      have hsplit := (dropExact_eq_some _ _ _).mp hde
      refine ⟨l.takeWhile pyIsSpace, r, ?_, ?_, ?_⟩
      · intro c hc
        exact List.mem_takeWhile_imp hc
      · intro c hc
        exact List.all_eq_true.mp h c hc
      · conv_lhs => rw [← List.takeWhile_append_dropWhile pyIsSpace l]
        rw [hsplit]
        simp
  · rintro ⟨ws1, ws2, h1, h2, rfl⟩
    rw [endFenceMatch, matchTagLine]
    have hd : ((ws1 ++ fence3 ++ ws2).dropWhile pyIsSpace) = fence3 ++ ws2 := by
      rw [List.append_assoc, dropWhile_append_all ws1 (fence3 ++ ws2) h1]
      rw [show fence3 ++ ws2 = btick :: ([btick, btick] ++ ws2) from rfl,
        List.dropWhile_cons, pyIsSpace_btick]
      simp
    rw [hd, show dropExact (fence3 ++ []) (fence3 ++ ws2)
      = some ws2 from (dropExact_eq_some _ _ _).mpr (by simp)]
    exact List.all_eq_true.mpr h2

/-! Concrete fixtures used by witnesses and counterexamples. -/

/-- Bytes of an ASCII string. -/
def asciiBytes (s : Str) : List Nat := s.map Char.toNat

/-- A small document with one well-formed mermaid block. -/
def docSimple : Str := "```mermaid\ngraph TD\n```\n".data

/-- First sample path. -/
def pathA : Str := "/a/b".data

/-- Second sample path, sanitizing to the same name as the first. -/
def pathB : Str := "/a_b".data

/-- The sample document as a file. -/
def fileSimple : MdFile := ⟨true, asciiBytes docSimple⟩

/-- Sample file system holding the sample document at both sample paths. -/
def fsSample : Str → MdFile :=
  fun p => if p = pathA || p = pathB then fileSimple else ⟨false, []⟩

/-- Subprocess oracle whose renderer always succeeds silently. -/
def subprocTrivial : List Str → SpawnOutcome := fun _ => .completed ⟨0, [], []⟩

/-- Which oracle resolving only the renderer binary. -/
def whichSample : Str → Option Str :=
  fun n => if n = mmdcName then some ("/usr/bin/mmdc".data) else none

/-- Sample environment: no glob matches, identity resolution, both sample
paths exist, renderer always succeeds. -/
def envSample : Env :=
  ⟨whichSample, fun _ => [], id, fun p => p = pathA || p = pathB, fsSample,
    subprocTrivial, "/tmp/mm".data⟩

/-- Sample arguments naming both sample paths. -/
def argsSample : Args := ⟨[pathA, pathB], none, "default".data, false, false⟩

/-! Claim theorems. -/

/-- Claim C10: for every path that does not refer to an existing regular
file, the block extractor returns the empty list of blocks without
raising (the extractor is a total function into block lists). -/
theorem C10_not_file_empty (fs : Str → MdFile) (p : Str)
    (h : (fs p).is_file = false) : find_mermaid_blocks fs p = [] := by
  rw [find_mermaid_blocks, if_neg]
  rw [h]
  simp

/-- Witness for C10 at a concrete missing path. -/
theorem C10_not_file_empty_witness :
    (fsSample ("/nowhere".data)).is_file = false ∧
      find_mermaid_blocks fsSample ("/nowhere".data) = [] :=
  ⟨by decide, C10_not_file_empty fsSample ("/nowhere".data) (by decide)⟩

/-- Claim C9: for every file whose bytes fail the strict text decode,
extraction falls back to the permissive lossy decode of the same bytes and
still returns an ordinary block list (the extractor is total, so no
decoding error escapes and nothing is reported). -/
theorem C9_decode_fallback (fs : Str → MdFile) (p : Str)
    (hf : (fs p).is_file = true)
    (hd : utf8DecodeStrict (fs p).bytes = none) :
    find_mermaid_blocks fs p =
      scanAux p (splitlines (utf8DecodeIgnore (fs p).bytes)) 1 false 0 [] 0 := by
  rw [find_mermaid_blocks, if_pos (by rw [hf]), readLines, hd]

/-- A file whose bytes are the sample document followed by an invalid
byte, so that the strict decode fails. -/
def fsBadByte : Str → MdFile :=
  fun _ => ⟨true, asciiBytes docSimple ++ [255]⟩

/-- Witness for C9 at a concrete non-decodable file. -/
theorem C9_decode_fallback_witness :
    (fsBadByte pathA).is_file = true ∧
      utf8DecodeStrict (fsBadByte pathA).bytes = none ∧
      find_mermaid_blocks fsBadByte pathA =
        scanAux pathA (splitlines (utf8DecodeIgnore (fsBadByte pathA).bytes))
          1 false 0 [] 0 :=
  ⟨by decide, by decide,
    C9_decode_fallback fsBadByte pathA (by decide) (by decide)⟩

/-- The index trace of the extractor output of one document is 1, 2, ...
up to the number of blocks. -/
lemma find_map_index (fs : Str → MdFile) (p : Str) :
    (find_mermaid_blocks fs p).map Block.index_in_file
      = List.range' 1 (find_mermaid_blocks fs p).length := by
  rw [find_mermaid_blocks]
  by_cases hf : (fs p).is_file = true
  · rw [if_pos (by rw [hf])]
    exact scanAux_map_index (readLines (fs p)) p 1 false 0 [] 0
  · rw [if_neg (by simpa using hf)]
    simp

/-- Claim C5: per document, the extractor indices are exactly 1, 2, ... in
emission order (strictly increasing, contiguous, starting at 1), and an
opened fence with no closing fence in the remaining lines contributes no
block. -/
theorem C5_indices_and_unterminated (fs : Str → MdFile) (p : Str) :
    ((find_mermaid_blocks fs p).map Block.index_in_file
      = List.range' 1 (find_mermaid_blocks fs p).length) ∧
    (∀ (rest : List Str) (i s : Nat) (buf : List Str) (k : Nat),
      (∀ l ∈ rest, endFenceMatch l = false) →
      scanAux p rest i true s buf k = []) := by
  constructor
  · exact find_map_index fs p
  · intro rest i s buf k h
    exact scanAux_no_close rest p i s buf k h

/-- Witness for C5: the unterminated-fence part applied to a concrete
line list with no closing fence. -/
theorem C5_indices_and_unterminated_witness :
    (∀ l ∈ ["graph TD".data, "A --> B".data], endFenceMatch l = false) ∧
      scanAux pathA ["graph TD".data, "A --> B".data] 2 true 1 [] 0 = [] :=
  ⟨by decide, (C5_indices_and_unterminated fsSample pathA).2
    ["graph TD".data, "A --> B".data] 2 1 [] 0 (by decide)⟩

/-- The Unicode replacement character. -/
def repChar : Char := Char.ofNat 0xFFFD

/-- Modelled from the spec wording of claim C6, for comparison with the
source: permissive UTF-8 decoding with invalid byte sequences replaced by
the replacement character instead of dropped. -/
def utf8DecodeReplaceSpec : List Nat → List Char
  | [] => []
  | b1 :: t1 =>
    if b1 ≤ 0x7F then Char.ofNat b1 :: utf8DecodeReplaceSpec t1
    else if 0xC2 ≤ b1 && b1 ≤ 0xDF then
      match t1 with
      | b2 :: t2 =>
        if isCont b2 then Char.ofNat (cp2 b1 b2) :: utf8DecodeReplaceSpec t2
        else repChar :: utf8DecodeReplaceSpec (b2 :: t2)
      | [] => [repChar]
    else if 0xE0 ≤ b1 && b1 ≤ 0xEF then
      match t1 with
      | b2 :: b3 :: t3 =>
        if valid3Pair b1 b2 && isCont b3 then
          Char.ofNat (cp3 b1 b2 b3) :: utf8DecodeReplaceSpec t3
        else repChar :: utf8DecodeReplaceSpec (b2 :: b3 :: t3)
      | [b2] => repChar :: utf8DecodeReplaceSpec [b2]
      | [] => [repChar]
    else if 0xF0 ≤ b1 && b1 ≤ 0xF4 then
      match t1 with
      | b2 :: b3 :: b4 :: t4 =>
        if valid4Pair b1 b2 && isCont b3 && isCont b4 then
          Char.ofNat (cp4 b1 b2 b3 b4) :: utf8DecodeReplaceSpec t4
        else repChar :: utf8DecodeReplaceSpec (b2 :: b3 :: b4 :: t4)
      | [b2, b3] => repChar :: utf8DecodeReplaceSpec [b2, b3]
      | [b2] => repChar :: utf8DecodeReplaceSpec [b2]
      | [] => [repChar]
    else repChar :: utf8DecodeReplaceSpec t1

/-- Modelled from the spec wording of claim C6, for comparison with the
source run_mmdc: identical except that the diagnostic stream is decoded
with invalid byte sequences replaced rather than dropped. -/
def run_mmdc_replaceSpec (subprocess : List Str → SpawnOutcome)
    (cmd_base : List Str) (in_file out_file theme : Str)
    (config : Option Str) : Bool × Str :=
  let cmd := mmdcCmd cmd_base in_file out_file theme config
  match subprocess cmd with
  | .completed proc =>
    let ok := proc.returncode == 0
    let msg := pyStrip (utf8DecodeReplaceSpec
      (if proc.stderrBytes.isEmpty then proc.stdoutBytes else proc.stderrBytes))
    (ok, msg)
  | .fileNotFound e => (false, execFailMsg ++ e)

/-- Subprocess oracle failing with a lone invalid byte on stderr. -/
def subprocBadByte : List Str → SpawnOutcome :=
  fun _ => .completed ⟨1, asciiBytes ("hello".data), [255]⟩

/-- Counterexample to claim C6 as stated: with a non-empty stderr stream
holding one invalid byte, the source decodes with invalid bytes dropped
and returns an empty diagnostic, while the claimed replace-decoding would
return the replacement character; the two disagree. -/
theorem C6_counterexample :
    (subprocBadByte (mmdcCmd ["mmdc".data] pathA pathB ("default".data) none)
        = .completed ⟨1, asciiBytes ("hello".data), [255]⟩) ∧
    ([(255 : Nat)] ≠ ([] : List Nat)) ∧
    (run_mmdc subprocBadByte ["mmdc".data] pathA pathB ("default".data) none).2
      = [] ∧
    (run_mmdc_replaceSpec subprocBadByte ["mmdc".data] pathA pathB
      ("default".data) none).2 = [repChar] ∧
    (run_mmdc subprocBadByte ["mmdc".data] pathA pathB ("default".data) none).2
      ≠ (run_mmdc_replaceSpec subprocBadByte ["mmdc".data] pathA pathB
        ("default".data) none).2 := by
  refine ⟨rfl, by decide, by decide, by decide, by decide⟩

/-- Claim C6 as amended: for every completed renderer subprocess, the
invoker reports success iff the exit status is zero, and the diagnostic is
the stderr stream if non-empty else the stdout stream, decoded permissively
with invalid byte sequences dropped (ignored) rather than raising, and
stripped of surrounding whitespace. -/
theorem C6_amended_run_mmdc (sp : List Str → SpawnOutcome)
    (cmd_base : List Str) (in_file out_file theme : Str) (config : Option Str)
    (proc : SubprocResult)
    (h : sp (mmdcCmd cmd_base in_file out_file theme config)
      = .completed proc) :
    run_mmdc sp cmd_base in_file out_file theme config =
      ((proc.returncode == 0), pyStrip (utf8DecodeIgnore
        (if proc.stderrBytes.isEmpty then proc.stdoutBytes
         else proc.stderrBytes))) ∧
    ((run_mmdc sp cmd_base in_file out_file theme config).1 = true ↔
      proc.returncode = 0) := by
  rw [run_mmdc, h]
  refine ⟨rfl, ?_⟩
  simp

/-- Witness for the amended C6 at a concrete failing subprocess. -/
theorem C6_amended_run_mmdc_witness :
    (subprocBadByte (mmdcCmd ["mmdc".data] pathA pathB ("default".data) none)
        = .completed ⟨1, asciiBytes ("hello".data), [255]⟩) ∧
    (run_mmdc subprocBadByte ["mmdc".data] pathA pathB ("default".data) none =
      (((1 : Int) == 0), pyStrip (utf8DecodeIgnore [255])) ∧
      ((run_mmdc subprocBadByte ["mmdc".data] pathA pathB ("default".data)
        none).1 = true ↔ (1 : Int) = 0)) :=
  ⟨rfl, C6_amended_run_mmdc subprocBadByte ["mmdc".data] pathA pathB
    ("default".data) none ⟨1, asciiBytes ("hello".data), [255]⟩ rfl⟩

/-- Modelled from the spec glossary wording of claim C7, for comparison
with the source close-fence pattern: a fence is any line of three or more
backticks, optionally padded with whitespace. -/
def bareFenceLineSpec (l : Str) : Bool :=
  let core := pyStrip l
  3 ≤ core.length && core.all (fun c => c = btick)

/-- A line of four backticks. -/
def fourBticks : Str := [btick, btick, btick, btick]

/-- File whose block holds a four-backtick line before the real close. -/
def fsFourTicks : Str → MdFile :=
  fun _ => ⟨true, asciiBytes ("```mermaid\nx\n````\n```\n".data)⟩

/-- Counterexample to claim C7 as stated: a four-backtick line satisfies
the claimed three-or-more fence shape, yet the extractor does not close
the open block there — the line is buffered into the block content and
the block only closes at the later exactly-three-backtick line. -/
theorem C7_counterexample :
    bareFenceLineSpec fourBticks = true ∧
    endFenceMatch fourBticks = false ∧
    find_mermaid_blocks fsFourTicks pathA =
      [⟨pathA, 1, 1, "x".data ++ nlStr ++ fourBticks⟩] := by
  refine ⟨by decide, by decide, by decide⟩

/-- Claim C7 as amended: the close-fence pattern accepts exactly the lines
of exactly three backticks padded by whitespace (a longer backtick run
does not close), and while the extractor is inside an open block any such
line closes the block at that line. -/
theorem C7_amended_close_fence :
    (∀ l : Str, endFenceMatch l = true ↔
      ∃ ws1 ws2 : Str, (∀ c ∈ ws1, pyIsSpace c = true) ∧
        (∀ c ∈ ws2, pyIsSpace c = true) ∧ l = ws1 ++ fence3 ++ ws2) ∧
    (∀ (p line : Str) (rest : List Str) (i s : Nat) (buf : List Str)
      (k : Nat), endFenceMatch line = true →
      scanAux p (line :: rest) i true s buf k =
        ⟨p, s, k + 1, joinNL buf⟩ :: scanAux p rest (i + 1) false s [] (k + 1)) := by
  constructor
  · exact endFenceMatch_iff
  · intro p line rest i s buf k h
    rw [scanAux]
    simp [h]

/-- Witness for the amended C7: a padded exactly-three-backtick line
closes a concretely opened block. -/
theorem C7_amended_close_fence_witness :
    endFenceMatch (" ``` ".data) = true ∧
      scanAux pathA [" ``` ".data] 2 true 1 ["x".data] 0 =
        [⟨pathA, 1, 1, joinNL ["x".data]⟩] :=
  ⟨by decide, by
    rw [C7_amended_close_fence.2 pathA (" ``` ".data) [] 2 1 ["x".data] 0
      (by decide)]
    rfl⟩

/-! Case analysis of main shared by several claims. -/

lemma configOkB_false (env : Env) (args : Args)
    (h : configOkB env args = false) :
    ∃ c, args.config = some c ∧ env.pathExists c = false := by
  match hc : args.config with
  | none => rw [configOkB, hc] at h; cases h
  | some c =>
    rw [configOkB, hc] at h
    exact ⟨c, rfl, h⟩

lemma ctxOf_eq (env : Env) (args : Args) (cb : List Str)
    (h : which_mmdc env.shutilWhich = some cb) :
    ctxOf env args = ⟨env.subprocess, cb, env.tmpdirName, args.theme,
      args.config, args.quiet, env.fs⟩ := by
  rw [ctxOf, h]
  rfl

/-- Either main stops in one of the three environment-error branches with
empty traces and exit status 2, or all checks pass and the result is the
loop state wrapped in the final report. -/
lemma main_cases (env : Env) (args : Args) :
    ((main env args).writes = [] ∧ (main env args).invocations = [] ∧
      (main env args).exit = 2 ∧ (main env args).madeTmpdir = false ∧
      envErrorB env args = true) ∨
    (∃ cb, which_mmdc env.shutilWhich = some cb ∧ configOkB env args = true ∧
      (filesOf env args).isEmpty = false ∧ envErrorB env args = false ∧
      main env args =
        (let fin := runDocs (ctxOf env args) (filesOf env args)
         ⟨(if fin.found_any = 0 then 0 else if fin.failed = 0 then 0 else 1),
          fin.outLines ++ (if fin.found_any = 0 then [noBlocksLine]
            else [dashesLine, summaryLine fin.total fin.failed]),
          fin.errLines, fin.writes, fin.invocations, fin.total, fin.failed,
          true⟩)) := by
  rcases hwh : which_mmdc env.shutilWhich with _ | cb
  · left
    rw [main_no_mmdc env args hwh]
    refine ⟨rfl, rfl, rfl, rfl, ?_⟩
    rw [envErrorB, hwh]
    rfl
  · by_cases hcfg : configOkB env args = true
    · by_cases hne : (filesOf env args).isEmpty = true
      · left
        rw [main_eq_mainRun env args cb hwh hcfg,
          mainRun_no_files env args cb hne]
        refine ⟨rfl, rfl, rfl, rfl, ?_⟩
        rw [envErrorB, hwh, hne]
        simp
      · right
        refine ⟨cb, rfl, hcfg, by simpa using hne, ?_, ?_⟩
        · rw [envErrorB, hwh]
          simp [hcfg, hne]
        · rw [main_eq_mainRun env args cb hwh hcfg,
            mainRun_spec env args cb (by simpa using hne),
            ctxOf_eq env args cb hwh]
    · left
      have hcfg' : configOkB env args = false := by
        revert hcfg; cases configOkB env args <;> simp
      rcases configOkB_false env args hcfg' with ⟨c, hc, he⟩
      rw [main_bad_config env args cb c hwh hc he]
      refine ⟨rfl, rfl, rfl, rfl, ?_⟩
      rw [envErrorB]
      simp [hcfg']

/-- Claim C3: every text written to a scratch input file during a run is
the content of an extracted block of one of the resolved documents, and
that content is byte-identical to the newline-join of the lines strictly
between the block's opening and closing fences in the (decoded) document. -/
theorem C3_roundTrip (env : Env) (args : Args) :
    ∀ w ∈ (main env args).writes, ∃ md ∈ filesOf env args,
      ∃ b ∈ find_mermaid_blocks env.fs md, w.2 = b.content ∧
        roundTrips (readLines (env.fs md)) b := by
  intro w hw
  rcases main_cases env args with ⟨hwr, _⟩ | ⟨cb, _, _, _, _, hmain⟩
  · rw [hwr] at hw
    cases hw
  · rw [hmain] at hw
    simp only [runDocs_eq] at hw
    rcases List.mem_flatMap.mp hw with ⟨md, hmd, hwmd⟩
    rcases List.mem_map.mp hwmd with ⟨b, hb, hbw⟩
    have hblocks : docBlocks (ctxOf env args) md = find_mermaid_blocks env.fs md := rfl
    rw [hblocks] at hb
    refine ⟨md, hmd, b, hb, ?_, find_roundTrips env.fs md b hb⟩
    rw [← hbw]
    rfl

/-- Witness for C3: the single write of a concrete one-document run. -/
theorem C3_roundTrip_witness :
    ((inFilePath ("/tmp/mm".data) pathA 1, "graph TD".data) ∈
      (main envSample ⟨[pathA], none, "default".data, false, false⟩).writes) ∧
    (∃ md ∈ filesOf envSample ⟨[pathA], none, "default".data, false, false⟩,
      ∃ b ∈ find_mermaid_blocks envSample.fs md,
        (inFilePath ("/tmp/mm".data) pathA 1, "graph TD".data).2 = b.content ∧
        roundTrips (readLines (envSample.fs md)) b) :=
  ⟨by decide, C3_roundTrip envSample ⟨[pathA], none, "default".data, false, false⟩
    (inFilePath ("/tmp/mm".data) pathA 1, "graph TD".data) (by decide)⟩

/-- Claim C2: once the environment checks pass, the renderer is invoked
exactly once per extracted block, in document order and block order (the
invocation trace is the per-document concatenation of per-block commands);
the final Checked counter equals the total number of extracted blocks; the
summary line reports that counter when any block exists; and a document
with zero blocks contributes nothing to the loop state, in particular no
output line. -/
theorem C2_invocations_per_block (env : Env) (args : Args) (cb : List Str)
    (h1 : which_mmdc env.shutilWhich = some cb)
    (h2 : configOkB env args = true)
    (h3 : (filesOf env args).isEmpty = false) :
    ((main env args).invocations = (filesOf env args).flatMap (fun md =>
      (find_mermaid_blocks env.fs md).map (blockCmd (ctxOf env args) md))) ∧
    ((main env args).total = ((filesOf env args).flatMap (fun md =>
      find_mermaid_blocks env.fs md)).length) ∧
    ((∃ md ∈ filesOf env args, find_mermaid_blocks env.fs md ≠ []) →
      summaryLine (main env args).total (main env args).failed ∈
        (main env args).outLines) ∧
    (∀ (cx : Ctx) (st : LoopState) (md : Str),
      find_mermaid_blocks cx.fs md = [] → stepDoc cx st md = st) := by
  rcases main_cases env args with ⟨_, _, _, _, herr⟩ | ⟨cb', _, _, _, _, hmain⟩
  · rw [envErrorB, h1, h2, h3] at herr
    simp at herr
  · refine ⟨?_, ?_, ?_, ?_⟩
    · rw [hmain]
      simp only [runDocs_eq]
      rfl
    · rw [hmain]
      simp only [runDocs_eq]
      rfl
    · intro hex
      rw [hmain]
      simp only [runDocs_eq]
      have hall : (filesOf env args).all
          (fun d => (docBlocks (ctxOf env args) d).isEmpty) = false := by
        rcases hex with ⟨md, hmd, hne⟩
        rcases hb : (filesOf env args).all
            (fun d => (docBlocks (ctxOf env args) d).isEmpty) with _ | _
        · rfl
        · exfalso
          have := List.all_eq_true.mp hb md hmd
          rw [List.isEmpty_iff] at this
          exact hne this
      rw [hall]
      simp
    · intro cx st md h
      rw [stepDoc]
      simp [h]

/-- Witness for C2 at the concrete two-document environment. -/
theorem C2_invocations_per_block_witness :
    (which_mmdc envSample.shutilWhich = some [("/usr/bin/mmdc".data)]) ∧
    (configOkB envSample argsSample = true) ∧
    ((filesOf envSample argsSample).isEmpty = false) ∧
    (((main envSample argsSample).invocations =
        (filesOf envSample argsSample).flatMap (fun md =>
          (find_mermaid_blocks envSample.fs md).map
            (blockCmd (ctxOf envSample argsSample) md))) ∧
      ((main envSample argsSample).total =
        ((filesOf envSample argsSample).flatMap (fun md =>
          find_mermaid_blocks envSample.fs md)).length) ∧
      ((∃ md ∈ filesOf envSample argsSample,
          find_mermaid_blocks envSample.fs md ≠ []) →
        summaryLine (main envSample argsSample).total
          (main envSample argsSample).failed ∈
            (main envSample argsSample).outLines) ∧
      (∀ (cx : Ctx) (st : LoopState) (md : Str),
        find_mermaid_blocks cx.fs md = [] → stepDoc cx st md = st)) :=
  ⟨by decide, by decide, by decide,
    C2_invocations_per_block envSample argsSample [("/usr/bin/mmdc".data)]
      (by decide) (by decide) (by decide)⟩

/-- Claim C1: the exit status is exactly 2 on environment or usage errors
(renderer unresolvable, config path missing, or no resolvable inputs),
exactly 1 when the checks pass and some extracted block's renderer
invocation failed, and exactly 0 when the checks pass and every extracted
block's invocation succeeded or no block was found at all — for every
environment, argument vector and renderer outcome. -/
theorem C1_exit_status (env : Env) (args : Args) :
    ((main env args).exit = 2 ↔ envErrorB env args = true) ∧
    ((main env args).exit = 1 ↔ envErrorB env args = false ∧
      ∃ md ∈ filesOf env args, ∃ b ∈ find_mermaid_blocks env.fs md,
        blockOk (ctxOf env args) md b = false) ∧
    ((main env args).exit = 0 ↔ envErrorB env args = false ∧
      ((∀ md ∈ filesOf env args, ∀ b ∈ find_mermaid_blocks env.fs md,
          blockOk (ctxOf env args) md b = true) ∨
        (∀ md ∈ filesOf env args, find_mermaid_blocks env.fs md = []))) := by
  have hdb : ∀ md, docBlocks (ctxOf env args) md
      = find_mermaid_blocks env.fs md := fun _ => rfl
  rcases main_cases env args with ⟨_, _, hex, _, herr⟩ |
    ⟨cb, hwh, hcfg, hne, herr, hmain⟩
  · rw [hex, herr]
    refine ⟨by simp, by simp, by simp⟩
  · rw [hmain, herr]
    simp only [runDocs_eq]
    have hfail : (((filesOf env args).flatMap
        (docFails (ctxOf env args))).length = 0) ↔
        (∀ md ∈ filesOf env args, ∀ b ∈ find_mermaid_blocks env.fs md,
          blockOk (ctxOf env args) md b = true) := by
      rw [List.length_eq_zero, List.flatMap_eq_nil_iff]
      constructor
      · intro h md hmd b hb
        have h2 := h md hmd
        rw [docFails, List.filter_eq_nil_iff] at h2
        have h3 := h2 b (by rw [hdb]; exact hb)
        revert h3
        cases blockOk (ctxOf env args) md b <;> simp
      · intro h md hmd
        rw [docFails, List.filter_eq_nil_iff]
        intro b hb
        rw [hdb] at hb
        rw [h md hmd b hb]
        simp
    have hempty : ((filesOf env args).all
        (fun d => (docBlocks (ctxOf env args) d).isEmpty) = true) ↔
        (∀ md ∈ filesOf env args, find_mermaid_blocks env.fs md = []) := by
      rw [List.all_eq_true]
      constructor
      · intro h md hmd
        have h2 := h md hmd
        rw [hdb, List.isEmpty_iff] at h2
        exact h2
      · intro h md hmd
        rw [hdb, List.isEmpty_iff]
        exact h md hmd
    have hei : (∀ md ∈ filesOf env args, find_mermaid_blocks env.fs md = []) →
        (∀ md ∈ filesOf env args, ∀ b ∈ find_mermaid_blocks env.fs md,
          blockOk (ctxOf env args) md b = true) := by
      intro h md hmd b hb
      rw [h md hmd] at hb
      cases hb
    by_cases hall : (filesOf env args).all
        (fun d => (docBlocks (ctxOf env args) d).isEmpty) = true
    · have hok := hei (hempty.mp hall)
      simp only [hall, if_true]
      refine ⟨by simp, ?_, ?_⟩
      · simp only [show ((0 : Nat) = 1) = False from by simp, false_iff]
        rintro ⟨-, md, hmd, b, hb, hbf⟩
        rw [hok md hmd b hb] at hbf
        cases hbf
      · simp only [show ((0 : Nat) = 0) = True from by simp, true_iff]
        exact ⟨by simp, Or.inl hok⟩
    · rw [if_neg hall, if_neg (show ¬(1 : Nat) = 0 from by decide)]
      by_cases hf0 : ((filesOf env args).flatMap
          (docFails (ctxOf env args))).length = 0
      · have hok := hfail.mp hf0
        rw [if_pos hf0]
        refine ⟨⟨fun h => absurd h (by decide), fun h => absurd h (by decide)⟩,
          ⟨fun h => absurd h (by decide), ?_⟩, ⟨fun _ => ⟨trivial, Or.inl hok⟩,
            fun _ => rfl⟩⟩
        rintro ⟨-, md, hmd, b, hb, hbf⟩
        rw [hok md hmd b hb] at hbf
        cases hbf
      · have hexfail : ∃ md ∈ filesOf env args,
            ∃ b ∈ find_mermaid_blocks env.fs md,
              blockOk (ctxOf env args) md b = false := by
          by_contra hcon
          apply hf0
          rw [hfail]
          intro md hmd b hb
          rcases hres : blockOk (ctxOf env args) md b with _ | _
          · exact absurd ⟨md, hmd, b, hb, hres⟩ hcon
          · rfl
        rw [if_neg hf0]
        refine ⟨⟨fun h => absurd h (by decide), fun h => absurd h (by decide)⟩,
          ⟨fun _ => ⟨trivial, hexfail⟩, fun _ => rfl⟩,
          ⟨fun h => absurd h (by decide), ?_⟩⟩
        rintro ⟨-, hdis | hdis⟩
        · rcases hexfail with ⟨md, hmd, b, hb, hbf⟩
          rw [hdis md hmd b hb] at hbf
          cases hbf
        · exact absurd (hempty.mpr hdis) hall

/-- Claim C8: when the renderer resolves and the config check passes but
every pattern matches no glob and no literal path exists (after
resolution), the run exits with status 2, prints the no-input error, and
never creates the scratch directory; moreover on every run whatsoever the
scratch directory is only created after the no-input check has passed. -/
theorem C8_no_inputs (env : Env) (args : Args) (cb : List Str)
    (h1 : which_mmdc env.shutilWhich = some cb)
    (h2 : configOkB env args = true)
    (h3 : ∀ pat ∈ args.inputs, env.globMatch pat = [] ∧
      env.pathExists (env.resolvePath pat) = false) :
    ((main env args).exit = 2 ∧ (main env args).errLines = [errNoInputs] ∧
      (main env args).madeTmpdir = false) ∧
    (∀ (env' : Env) (args' : Args),
      (main env' args').madeTmpdir = true → filesOf env' args' ≠ []) := by
  constructor
  · have hfe : filesOf env args = [] := by
      rw [List.eq_nil_iff_forall_not_mem]
      intro x hx
      rw [filesOf] at hx
      rcases List.mem_filter.mp hx with ⟨hxm, hxe⟩
      rcases mem_expand_inputs _ _ _ x hxm with ⟨p, hp, hcase⟩
      rcases hcase with ⟨-, hxr⟩ | ⟨m, hm, -⟩
      · rcases h3 p hp with ⟨-, hpe⟩
        rw [hxr] at hxe
        rw [hxe] at hpe
        cases hpe
      · rcases h3 p hp with ⟨hg0, -⟩
        rw [hg0] at hm
        cases hm
    rw [main_eq_mainRun env args cb h1 h2,
      mainRun_no_files env args cb (by rw [hfe]; rfl)]
    exact ⟨rfl, rfl, rfl⟩
  · intro env' args' hmt
    rcases main_cases env' args' with ⟨-, -, -, hmt0, -⟩ |
      ⟨cb', -, -, hne, -, -⟩
    · rw [hmt0] at hmt
      cases hmt
    · intro hnil
      rw [hnil] at hne
      cases hne

/-- Environment in which nothing globs and nothing exists. -/
def envNoInput : Env :=
  ⟨whichSample, fun _ => [], id, fun _ => false, fun _ => ⟨false, []⟩,
    subprocTrivial, "/tmp/mm".data⟩

/-- Witness for C8 at the concrete empty environment. -/
theorem C8_no_inputs_witness :
    (which_mmdc envNoInput.shutilWhich = some [("/usr/bin/mmdc".data)]) ∧
    (configOkB envNoInput argsSample = true) ∧
    (∀ pat ∈ argsSample.inputs, envNoInput.globMatch pat = [] ∧
      envNoInput.pathExists (envNoInput.resolvePath pat) = false) ∧
    (((main envNoInput argsSample).exit = 2 ∧
      (main envNoInput argsSample).errLines = [errNoInputs] ∧
      (main envNoInput argsSample).madeTmpdir = false) ∧
    (∀ (env' : Env) (args' : Args),
      (main env' args').madeTmpdir = true → filesOf env' args' ≠ [])) :=
  ⟨by decide, by decide, by decide,
    C8_no_inputs envNoInput argsSample [("/usr/bin/mmdc".data)]
      (by decide) (by decide) (by decide)⟩

/-- Counterexample to claim C4 as stated: two distinct resolved input
documents whose full paths sanitize to the same name (a slash versus an
underscore) produce identical scratch input filenames for their first
blocks, so the generated filenames are not pairwise distinct over this
run. -/
theorem C4_counterexample :
    pathA ≠ pathB ∧
    filesOf envSample argsSample = [pathA, pathB] ∧
    (find_mermaid_blocks envSample.fs pathA).length = 1 ∧
    (find_mermaid_blocks envSample.fs pathB).length = 1 ∧
    safe_name pathA = safe_name pathB ∧
    ¬ (((main envSample argsSample).writes.map Prod.fst).Nodup) :=
  ⟨by decide, by decide, by decide, by decide, by decide, by decide⟩

/-- Claim C4 as amended: the scratch input filenames of a run are pairwise
distinct whenever the sanitized full paths of the (deduplicated, resolved)
input documents are pairwise distinct — in particular two documents that
share a base name but differ elsewhere in the sanitized path collide
never; sanitization is lossy, so documents with equal sanitized paths can
collide. -/
theorem C4_amended_scratch_unique (env : Env) (args : Args)
    (hinj : ∀ a ∈ filesOf env args, ∀ b ∈ filesOf env args,
      safe_name a = safe_name b → a = b) :
    (((main env args).writes.map Prod.fst).Nodup) := by
  rcases main_cases env args with ⟨hwr, -⟩ | ⟨cb, -, -, -, -, hmain⟩
  · rw [hwr]
    simp
  · rw [hmain]
    simp only [runDocs_eq]
    rw [List.map_flatMap, List.nodup_flatMap]
    constructor
    · intro md _
      rw [List.map_map]
      have hco : (Prod.fst ∘ blockWrite (ctxOf env args) md) =
          ((fun i => inFilePath (ctxOf env args).tmpdir md i) ∘
            Block.index_in_file) := rfl
      rw [hco, ← List.map_map]
      apply List.Nodup.map
      · intro i j hij
        exact (inFilePath_inj hij).2
      · have h3 : (docBlocks (ctxOf env args) md).map Block.index_in_file
            = List.range' 1 (docBlocks (ctxOf env args) md).length :=
          find_map_index env.fs md
        rw [h3]
        exact List.nodup_range' 1 _
    · refine List.Pairwise.imp_of_mem ?_ (filesOf_nodup env args)
      intro a b ha hb hne x hxa hxb
      simp only [List.map_map] at hxa hxb
      rcases List.mem_map.mp hxa with ⟨ba, -, hba⟩
      rcases List.mem_map.mp hxb with ⟨bb, -, hbb⟩
      have heq : inFilePath (ctxOf env args).tmpdir a ba.index_in_file
          = inFilePath (ctxOf env args).tmpdir b bb.index_in_file := by
        rw [show inFilePath (ctxOf env args).tmpdir a ba.index_in_file
          = (Prod.fst ∘ blockWrite (ctxOf env args) a) ba from rfl, hba,
          ← hbb]
        rfl
      exact hne (hinj a ha b hb (inFilePath_inj heq).1)

/-- Environment with a single input file. -/
def envSingle : Env :=
  ⟨whichSample, fun _ => [], id, fun p => p = pathA, fsSample,
    subprocTrivial, "/tmp/mm".data⟩

/-- Arguments naming the single input file. -/
def argsSingle : Args := ⟨[pathA], none, "default".data, false, false⟩

/-- Witness for the amended C4 at a concrete run with distinct sanitized
paths. -/
theorem C4_amended_scratch_unique_witness :
    (∀ a ∈ filesOf envSingle argsSingle, ∀ b ∈ filesOf envSingle argsSingle,
      safe_name a = safe_name b → a = b) ∧
    (((main envSingle argsSingle).writes.map Prod.fst).Nodup) :=
  ⟨by decide, C4_amended_scratch_unique envSingle argsSingle (by decide)⟩

end MdMermaidChecker
